import Mathlib

/-!
# Formal model of the api-communication-gateway-server core

A shallow embedding, in Lean 4, of the core of the gateway:

* `CSState` and its operations model `ChunkStream` (`src/@internals/stream/chunk.ts`):
  the ordered, length-tracked byte queue with destructive (`read`) and
  non-destructive (`peek`) range reads, `acceptChunk` and `endStream` (the
  source's `end()`).
* `Transporter.create` models the `Transporter` constructor
  (`src/plain/serializer.ts`): splitting a payload into bounded-size chunks.
* `SymmetricKey` models the packed key-material layout
  (`src/@internals/crypto/symmetric/aes.ts`, second half of the file).
* `AESState` and `EncryptedTransporter` model the cipher wrapper and the
  one-shot encrypt-then-sign-then-chunk orchestration.
* `serialize` / `parsePkg` model the minimal binary envelope
  (`src/plain/serializer.ts`, first half).

Buffers are modelled as `List Nat` (one `Nat` per byte).  Exceptions are
modelled with `Except ErrCode`; the constructors of `ErrCode` mirror the
string error codes passed to `Exception` at each throw site.  External
collaborators (the HMAC, SHA-512 and block-cipher primitives of
`cryptx-sdk` / `node:crypto`) are modelled as an `ExternalCrypto` record of
uninterpreted functions supplied by the caller, and the repository constant
`MAX_CHUNK_SIZE` (whose defining module `@internals/constants` is not part
of the sources) is threaded through as an explicit parameter `MCS`.
-/

/-- Error codes.  Each constructor mirrors the string code passed to
`new Exception(message, code)` at a throw site of the source.  `jsCrash`
stands for a JavaScript runtime `TypeError` (reading a property of
`undefined`), which the source would raise when the chunk list runs dry
while the tracked length still promises bytes. -/
inductive ErrCode where
  | streamBufferOverflow
  | endOfStream
  | streamBufferUnderflow
  | streamInvalidChunk
  | streamDisposed
  | unsupportedOperation
  | invalidArgument
  | outOfRange
  | invalidType
  | invalidAlgorithm
  | invalidAuthTag
  | invalidIVLength
  | serializationFailed
  | parseFailed
  | jsCrash
deriving DecidableEq, Repr

/-- State of a `ChunkStream`: the chunk list `$chunks`, the tracked total
length `$length`, the `$finish` flag set by `end()` and the `$disposed`
flag set by `dispose()`. -/
structure CSState where
  chunks : List (List Nat)
  len : Nat
  finished : Bool
  disposed : Bool
deriving DecidableEq, Repr

/-- A freshly constructed `ChunkStream`. -/
def CSState.init : CSState :=
  { chunks := [], len := 0, finished := false, disposed := false }

/-- `ChunkStream.acceptChunk`: fails with `ERR_STREAM_BUFFER_OVERFLOW` once
the stream is finished, otherwise pushes the chunk and grows the tracked
length. -/
def acceptChunk (st : CSState) (buffer : List Nat) : Except ErrCode CSState :=
  if st.finished then .error .streamBufferOverflow
  else .ok { st with chunks := st.chunks ++ [buffer], len := st.len + buffer.length }

/-- `ChunkStream.end`: fails with `ERR_END_OF_STREAM` when already finished,
otherwise marks the stream finished and returns the concatenation of the
remaining chunks. -/
def endStream (st : CSState) : Except ErrCode (List Nat × CSState) :=
  if st.finished then .error .endOfStream
  else .ok (st.chunks.flatten, { st with finished := true })

/-- `ChunkStream.chunks()`: valid only between `end()` and `dispose()`. -/
def chunksView (st : CSState) : Except ErrCode (List (List Nat)) :=
  if st.disposed then .error .streamBufferUnderflow
  else if !st.finished then .error .streamBufferUnderflow
  else .ok st.chunks

/-- The gathering loop of `ChunkStream[$read]` (the `while(byteCount > 0)`
loop): walks the chunk list collecting `n` bytes.  Returns the collected
bytes, the chunk list as left by the loop, and the total amount subtracted
from `$length`.  With `advance = false` (a `peek`) every mutation in the
source is guarded by `if(advance === true)`, so the list is rebuilt
unchanged and nothing is subtracted; the loop merely walks `index++`. -/
def gatherGo (advance : Bool) : List (List Nat) → Nat → Except ErrCode (List Nat × List (List Nat) × Nat)
  | chs, 0 => .ok ([], chs, 0)
  | [], _ + 1 => .error .jsCrash
  | c :: rest, k + 1 =>
    if k + 1 < c.length then
      .ok (c.take (k + 1), (if advance then c.drop (k + 1) :: rest else c :: rest),
           if advance then k + 1 else 0)
    else
      match gatherGo advance rest (k + 1 - c.length) with
      | .error e => .error e
      | .ok (bs, rem, removed) =>
        .ok (c ++ bs, (if advance then rem else c :: rem),
             (if advance then c.length else 0) + removed)

/-- `ChunkStream[$read](byteCount, advance)`: `0` bytes yield an empty
buffer; more bytes than the tracked length fail with
`ERR_STREAM_BUFFER_UNDERFLOW`; otherwise the head chunk is returned whole
(when its length matches), sliced (when longer), or the gathering loop
assembles the result from several chunks. -/
def readImpl (st : CSState) (byteCount : Nat) (advance : Bool) : Except ErrCode (List Nat × CSState) :=
  if byteCount = 0 then .ok ([], st)
  else if st.len < byteCount then .error .streamBufferUnderflow
  else
    match st.chunks with
    | [] => .error .jsCrash
    | c :: rest =>
      if c.length = byteCount then
        .ok (c, if advance then { st with chunks := rest, len := st.len - byteCount } else st)
      else if byteCount < c.length then
        .ok (c.take byteCount,
             if advance then { st with chunks := c.drop byteCount :: rest, len := st.len - byteCount } else st)
      else
        match gatherGo advance (c :: rest) byteCount with
        | .error e => .error e
        | .ok (bs, newChunks, removed) =>
          .ok (bs, if advance then { st with chunks := newChunks, len := st.len - removed } else st)

/-- `ChunkStream.read` — the destructive range read. -/
def CSState.read (st : CSState) (byteCount : Nat) : Except ErrCode (List Nat × CSState) :=
  readImpl st byteCount true

/-- `ChunkStream.peek` — the non-destructive range read. -/
def CSState.peek (st : CSState) (byteCount : Nat) : Except ErrCode (List Nat × CSState) :=
  readImpl st byteCount false

/-- The bookkeeping invariant of the queue: the tracked `$length` equals the
sum of the current chunk lengths (the spec's ByteQueue invariant). -/
def CSState.consistent (st : CSState) : Prop :=
  st.len = (st.chunks.map List.length).sum

instance (st : CSState) : Decidable st.consistent := by
  unfold CSState.consistent; infer_instance

/-- The slicing loop of the `Transporter` constructor
(`while(offset < payload.byteLength)`), expressed on the remaining suffix:
each turn emits `payload.subarray(offset, min(offset + maxLength, len))`
and advances `offset` by `maxLength`.  The first argument is fuel (the
loop runs at most `payload.length` turns whenever `maxLength ≥ 1`). -/
def splitGo (m : Nat) : Nat → List Nat → List (List Nat)
  | 0, _ => []
  | f + 1, p => if p.isEmpty then [] else p.take m :: splitGo m f (p.drop m)

/-- The chunk list built by the `Transporter` constructor: one chunk when the
payload fits in `maxLength`, otherwise consecutive `maxLength`-byte slices. -/
def transporterSlices (m : Nat) (payload : List Nat) : List (List Nat) :=
  if payload.length ≤ m then [payload] else splitGo m payload.length payload

/-- `_maxBlockSize || MAX_CHUNK_SIZE` combined with the parameter default
`_maxBlockSize = MAX_CHUNK_SIZE`: an omitted argument becomes `MCS`, and a
falsy (zero) value is replaced by `MCS` as well. -/
def effectiveMax (MCS : Nat) (maxBlockSize : Option Nat) : Nat :=
  let v := maxBlockSize.getD MCS
  if v = 0 then MCS else v

/-- A constructed `Transporter`: its effective `#maxLength` and the
underlying (already finalized) `ChunkStream` state whose chunk list the
`Readable` pushes in index order. -/
structure Transporter where
  maxLength : Nat
  stream : CSState
deriving DecidableEq, Repr

/-- The chunk list a consumer receives, in emission order. -/
def Transporter.chunksList (t : Transporter) : List (List Nat) :=
  t.stream.chunks

/-- `Transporter.byteSize` — `super.byteLength` of the finalized stream. -/
def Transporter.byteSize (t : Transporter) : Nat :=
  t.stream.len

/-- The constructor loop feeding the slices through `super.acceptChunk`. -/
def foldAccept (st : CSState) : List (List Nat) → Except ErrCode CSState
  | [] => .ok st
  | c :: rest =>
    match acceptChunk st c with
    | .error e => .error e
    | .ok st' => foldAccept st' rest

/-- The `Transporter` constructor: feeds the payload (whole, or sliced into
`maxLength`-byte pieces) through `acceptChunk`, then ends the stream.
`MCS` stands for the repository constant `MAX_CHUNK_SIZE`. -/
def Transporter.create (MCS : Nat) (payload : List Nat) (maxBlockSize : Option Nat) :
    Except ErrCode Transporter :=
  match foldAccept CSState.init (transporterSlices (effectiveMax MCS maxBlockSize) payload) with
  | .error e => .error e
  | .ok st =>
    match endStream st with
    | .error e => .error e
    | .ok (_, st2) => .ok { maxLength := effectiveMax MCS maxBlockSize, stream := st2 }

/-! ## Basic lemmas about the queue and the splitter -/

theorem foldAccept_ok (slices : List (List Nat)) (st : CSState)
    (h : st.finished = false) :
    foldAccept st slices =
      .ok { st with chunks := st.chunks ++ slices,
                    len := st.len + (slices.map List.length).sum } := by
  induction slices generalizing st with
  | nil => simp [foldAccept]
  | cons c rest ih =>
    simp only [foldAccept, acceptChunk, h, Bool.false_eq_true, if_neg, not_false_iff]
    rw [ih _ (by rfl)]
    simp [List.append_assoc, Nat.add_assoc]

theorem splitGo_flat (m : Nat) (hm : 0 < m) :
    ∀ (f : Nat) (p : List Nat), p.length ≤ f → (splitGo m f p).flatten = p := by
  intro f
  induction f with
  | zero =>
    intro p hp
    have : p = [] := List.eq_nil_of_length_eq_zero (Nat.le_zero.mp hp)
    simp [this, splitGo]
  | succ f ih =>
    intro p hp
    cases p with
    | nil => simp [splitGo]
    | cons a l =>
      have hdrop : ((a :: l).drop m).length ≤ f := by
        have : ((a :: l).drop m).length = (a :: l).length - m := by simp
        simp only [List.length_cons] at this hp
        omega
      simp only [splitGo, List.isEmpty_cons, Bool.false_eq_true, if_neg,
        not_false_iff, List.flatten_cons]
      rw [ih _ hdrop, List.take_append_drop]

theorem splitGo_mem_length (m : Nat) :
    ∀ (f : Nat) (p : List Nat), ∀ c ∈ splitGo m f p, c.length ≤ m := by
  intro f
  induction f with
  | zero => intro p c hc; simp [splitGo] at hc
  | succ f ih =>
    intro p c hc
    cases p with
    | nil => simp [splitGo] at hc
    | cons a l =>
      simp only [splitGo, List.isEmpty_cons, Bool.false_eq_true, if_neg,
        not_false_iff, List.mem_cons] at hc
      rcases hc with hc | hc
      · rw [hc]
        exact (a :: l).length_take_le m
      · exact ih _ _ hc

theorem splitGo_get (m : Nat) (hm : 0 < m) :
    ∀ (f : Nat) (p : List Nat), p.length ≤ f →
      ∀ (i : Nat) (hi : i < (splitGo m f p).length),
        (splitGo m f p)[i] = (p.drop (i * m)).take m := by
  intro f
  induction f with
  | zero => intro p hp i hi; simp [splitGo] at hi
  | succ f ih =>
    intro p hp i hi
    cases p with
    | nil => simp [splitGo] at hi
    | cons a l =>
      have hsp : splitGo m (f + 1) (a :: l) =
          (a :: l).take m :: splitGo m f ((a :: l).drop m) := by
        simp [splitGo]
      revert hi
      rw [hsp]
      intro hi
      cases i with
      | zero =>
        show (a :: l).take m = ((a :: l).drop (0 * m)).take m
        rw [Nat.zero_mul, List.drop_zero]
      | succ j =>
        have hdrop : ((a :: l).drop m).length ≤ f := by
          have : ((a :: l).drop m).length = (a :: l).length - m := by simp
          simp only [List.length_cons] at this hp
          omega
        have hj : j < (splitGo m f ((a :: l).drop m)).length := by
          simpa using hi
        have hrec := ih ((a :: l).drop m) hdrop j hj
        rw [List.getElem_cons_succ, hrec, List.drop_drop]
        congr 2
        ring

theorem splitGo_length (m : Nat) (hm : 0 < m) :
    ∀ (f : Nat) (p : List Nat), p ≠ [] → p.length ≤ f →
      (splitGo m f p).length = (p.length + (m - 1)) / m := by
  intro f
  induction f with
  | zero =>
    intro p hne hp
    exact absurd (List.eq_nil_of_length_eq_zero (Nat.le_zero.mp hp)) hne
  | succ f ih =>
    intro p hne hp
    cases p with
    | nil => exact absurd rfl hne
    | cons a l =>
      simp only [splitGo, List.isEmpty_cons, Bool.false_eq_true, if_neg,
        not_false_iff, List.length_cons]
      by_cases hle : (a :: l).length ≤ m
      · have hdropnil : (a :: l).drop m = [] := List.drop_eq_nil_of_le hle
        have hz : splitGo m f ((a :: l).drop m) = [] := by
          cases f <;> simp [splitGo, hdropnil]
        rw [hz]
        have hdiv : ((a :: l).length + (m - 1)) / m = 1 := by
          apply Nat.div_eq_of_lt_le
          · simp only [List.length_cons] at hle ⊢
            omega
          · simp only [List.length_cons] at hle ⊢
            omega
        simp only [List.length_nil, List.length_cons] at hdiv ⊢
        omega
      · have hld : ((a :: l).drop m).length = (a :: l).length - m := by simp
        have hdrop : ((a :: l).drop m).length ≤ f := by
          simp only [List.length_cons] at hld hp ⊢
          omega
        have hdropne : (a :: l).drop m ≠ [] := by
          intro hcon
          have := congrArg List.length hcon
          simp only [List.length_nil] at this
          rw [hld] at this
          simp only [List.length_cons] at this hle
          omega
        rw [ih _ hdropne hdrop, hld]
        simp only [List.length_cons] at hle ⊢
        have h1 : l.length + 1 - m + (m - 1) + m = l.length + 1 + (m - 1) := by
          omega
        rw [← h1, Nat.add_div_right _ hm]

theorem transporterSlices_length_of_lt (m : Nat) (hm : 0 < m) (p : List Nat)
    (hgt : m < p.length) :
    (transporterSlices m p).length = (p.length + (m - 1)) / m := by
  have hne : p ≠ [] := by
    intro hcon
    rw [hcon] at hgt
    simp at hgt
  have he : transporterSlices m p = splitGo m p.length p := by
    unfold transporterSlices
    rw [if_neg (by omega)]
  rw [he]
  exact splitGo_length m hm p.length p hne le_rfl

theorem transporterSlices_get_of_lt (m : Nat) (hm : 0 < m) (p : List Nat)
    (hgt : m < p.length) (i : Nat) (hi : i < (transporterSlices m p).length) :
    (transporterSlices m p)[i] = (p.drop (i * m)).take m := by
  have he : transporterSlices m p = splitGo m p.length p := by
    unfold transporterSlices
    rw [if_neg (by omega)]
  revert hi
  rw [he]
  intro hi
  exact splitGo_get m hm p.length p le_rfl i hi

theorem transporterCreate_eq (MCS : Nat) (p : List Nat) (m : Nat) (hm : m ≠ 0) :
    Transporter.create MCS p (some m) =
      .ok { maxLength := m,
            stream := { chunks := transporterSlices m p,
                        len := ((transporterSlices m p).map List.length).sum,
                        finished := true, disposed := false } } := by
  have heff : effectiveMax MCS (some m) = m := by
    simp [effectiveMax, hm]
  unfold Transporter.create
  rw [heff, foldAccept_ok _ _ rfl]
  simp [endStream, CSState.init]

/-- A `Transporter` built from payload `p` and a positive `maxChunkSize m`:
construction succeeds, concatenating the emitted chunks in emission order
restores `p`, every chunk is at most `m` bytes, the chunk lengths sum to
`p.length` (= `byteSize`), a payload of at most `m` bytes yields exactly
one chunk, and a longer payload yields `⌈p.length / m⌉` consecutive
`m`-byte slices (the `i`-th chunk is bytes `[i*m, i*m + m)`), the last
possibly shorter. -/
theorem C1_chunk_splitter (MCS : Nat) (p : List Nat) (m : Nat) (hm : 0 < m) :
    ∃ t : Transporter, Transporter.create MCS p (some m) = .ok t ∧
      t.chunksList.flatten = p ∧
      (∀ c ∈ t.chunksList, c.length ≤ m) ∧
      (t.chunksList.map List.length).sum = p.length ∧
      t.byteSize = p.length ∧
      (p.length ≤ m → t.chunksList = [p]) ∧
      (m < p.length →
        t.chunksList.length = (p.length + (m - 1)) / m ∧
        ∀ (i : Nat) (hi : i < t.chunksList.length),
          t.chunksList[i] = (p.drop (i * m)).take m) := by
  refine ⟨_, transporterCreate_eq MCS p m (Nat.pos_iff_ne_zero.mp hm), ?_⟩
  have hflat : (transporterSlices m p).flatten = p := by
    unfold transporterSlices
    by_cases hle : p.length ≤ m
    · simp [hle]
    · rw [if_neg hle]
      exact splitGo_flat m hm p.length p le_rfl
  have hsum : ((transporterSlices m p).map List.length).sum = p.length := by
    rw [← List.length_flatten, hflat]
  refine ⟨hflat, ?_, hsum, hsum, ?_, ?_⟩
  · intro c hc
    have hc2 : c ∈ transporterSlices m p := hc
    unfold transporterSlices at hc2
    by_cases hle : p.length ≤ m
    · rw [if_pos hle, List.mem_singleton] at hc2
      rw [hc2]
      exact hle
    · rw [if_neg hle] at hc2
      exact splitGo_mem_length m p.length p c hc2
  · intro hle
    show transporterSlices m p = [p]
    unfold transporterSlices
    rw [if_pos hle]
  · intro hgt
    exact ⟨transporterSlices_length_of_lt m hm p hgt,
           fun i hi => transporterSlices_get_of_lt m hm p hgt i hi⟩

/-- Witness for `C1_chunk_splitter`: the spec's own example, payload
`"hello world"` (11 bytes) split with `maxChunkSize = 4` into chunks of
lengths 4, 4, 3. -/
theorem C1_chunk_splitter_witness :
    ∃ t : Transporter,
      Transporter.create 65536 [104, 101, 108, 108, 111, 32, 119, 111, 114, 108, 100] (some 4) = .ok t ∧
      t.chunksList.flatten = [104, 101, 108, 108, 111, 32, 119, 111, 114, 108, 100] ∧
      (∀ c ∈ t.chunksList, c.length ≤ 4) ∧
      (t.chunksList.map List.length).sum = [104, 101, 108, 108, 111, 32, 119, 111, 114, 108, 100].length ∧
      t.byteSize = [104, 101, 108, 108, 111, 32, 119, 111, 114, 108, 100].length ∧
      ([104, 101, 108, 108, 111, 32, 119, 111, 114, 108, 100].length ≤ 4 → t.chunksList = [[104, 101, 108, 108, 111, 32, 119, 111, 114, 108, 100]]) ∧
      (4 < [104, 101, 108, 108, 111, 32, 119, 111, 114, 108, 100].length →
        t.chunksList.length = ([104, 101, 108, 108, 111, 32, 119, 111, 114, 108, 100].length + (4 - 1)) / 4 ∧
        ∀ (i : Nat) (hi : i < t.chunksList.length),
          t.chunksList[i] = ([104, 101, 108, 108, 111, 32, 119, 111, 114, 108, 100].drop (i * 4)).take 4) :=
  C1_chunk_splitter 65536 [104, 101, 108, 108, 111, 32, 119, 111, 114, 108, 100] 4 (by decide)

theorem gatherGo_ok (chs : List (List Nat)) :
    ∀ n : Nat, n ≤ (chs.map List.length).sum →
      ∃ bs rem removed,
        gatherGo true chs n = .ok (bs, rem, removed) ∧
        gatherGo false chs n = .ok (bs, chs, 0) := by
  induction chs with
  | nil =>
    intro n hn
    have : n = 0 := by simpa using hn
    subst this
    exact ⟨[], [], 0, rfl, rfl⟩
  | cons c rest ih =>
    intro n hn
    cases n with
    | zero => exact ⟨[], c :: rest, 0, rfl, rfl⟩
    | succ k =>
      by_cases hlt : k + 1 < c.length
      · refine ⟨c.take (k + 1), c.drop (k + 1) :: rest, k + 1, ?_, ?_⟩ <;>
          simp [gatherGo, hlt]
      · have hsum : k + 1 - c.length ≤ (rest.map List.length).sum := by
          simp only [List.map_cons, List.sum_cons] at hn
          omega
        obtain ⟨bs, rem, removed, h1, h2⟩ := ih (k + 1 - c.length) hsum
        refine ⟨c ++ bs, rem, c.length + removed, ?_, ?_⟩
        · simp only [gatherGo, if_neg hlt]
          rw [h1]
          simp
        · simp only [gatherGo, if_neg hlt]
          rw [h2]
          simp

/-- For every consistent queue state and every `n` within the tracked
length: `peek(n)` succeeds, returns exactly the bytes `consume(n)` would
return, and leaves the state — chunk list and tracked total length —
untouched (so repeated peeks over the same region, including reads
spanning several chunks, all observe the same bytes and the same state),
while `read(n)` succeeds on the same bytes. -/
theorem C3_peek_is_pure (st : CSState) (n : Nat) (hinv : st.consistent)
    (hn : n ≤ st.len) :
    ∃ bs st2, CSState.read st n = .ok (bs, st2) ∧
      CSState.peek st n = .ok (bs, st) := by
  obtain ⟨chunks, len, fin, disp⟩ := st
  unfold CSState.consistent at hinv
  simp only at hinv hn
  unfold CSState.read CSState.peek readImpl
  by_cases h0 : n = 0
  · subst h0
    exact ⟨[], _, rfl, rfl⟩
  · have hlt : ¬ len < n := by omega
    simp only [h0, hlt, if_neg, if_false, ite_false]
    cases chunks with
    | nil =>
      simp only [List.map_nil, List.sum_nil] at hinv
      omega
    | cons c rest =>
      by_cases he : c.length = n
      · simp only [he, if_pos, ite_true]
        exact ⟨c, _, rfl, rfl⟩
      · by_cases hl : n < c.length
        · simp only [he, hl, if_neg, if_pos, ite_false, ite_true]
          exact ⟨c.take n, _, rfl, rfl⟩
        · have hsum : n ≤ ((c :: rest).map List.length).sum := by omega
          obtain ⟨bs, rem, removed, h1, h2⟩ := gatherGo_ok (c :: rest) n hsum
          simp only [he, hl, if_neg, ite_false]
          rw [h1, h2]
          exact ⟨bs, _, rfl, rfl⟩

/-- Witness for `C3_peek_is_pure`: a three-chunk queue `[1,2] / [3,4,5] / [6]`
peeked and read across chunk boundaries (`n = 4`). -/
theorem C3_peek_is_pure_witness :
    ∃ bs st2,
      CSState.read { chunks := [[1, 2], [3, 4, 5], [6]], len := 6, finished := false, disposed := false } 4 = .ok (bs, st2) ∧
      CSState.peek { chunks := [[1, 2], [3, 4, 5], [6]], len := 6, finished := false, disposed := false } 4 =
        .ok (bs, { chunks := [[1, 2], [3, 4, 5], [6]], len := 6, finished := false, disposed := false }) :=
  C3_peek_is_pure { chunks := [[1, 2], [3, 4, 5], [6]], len := 6, finished := false, disposed := false } 4
    (by decide) (by decide)

/-- Counterexample to the claim that a second `finalize` fails with
`Overflow`: ending a fresh stream and ending it again fails with the code
`ERR_END_OF_STREAM` (the source's `end()` throws `'Cannot end stream more
than once'` with that code), which is a different code from
`ERR_STREAM_BUFFER_OVERFLOW`. -/
theorem C5_counterexample :
    (match endStream CSState.init with
     | .ok (_, st) => endStream st
     | .error e => .error e) = .error .endOfStream ∧
    ErrCode.endOfStream ≠ ErrCode.streamBufferOverflow := by
  exact ⟨rfl, by decide⟩

/-- Amended C5: after `finalize` (= `end()`) succeeds, every `append`
(= `acceptChunk`) fails with `ERR_STREAM_BUFFER_OVERFLOW`, while calling
`finalize` a second time fails with `ERR_END_OF_STREAM` (not `Overflow`). -/
theorem C5_append_after_finalize (st0 : CSState) (b : List Nat) (st1 : CSState)
    (h : endStream st0 = .ok (b, st1)) (buf : List Nat) :
    acceptChunk st1 buf = .error .streamBufferOverflow ∧
    endStream st1 = .error .endOfStream := by
  have hfin : st1.finished = true := by
    unfold endStream at h
    split at h
    · cases h
    · cases h
      rfl
  constructor
  · unfold acceptChunk
    rw [if_pos hfin]
  · unfold endStream
    rw [if_pos hfin]

/-- Witness for `C5_append_after_finalize`: a freshly created queue,
finalized once. -/
theorem C5_append_after_finalize_witness :
    acceptChunk { chunks := [], len := 0, finished := true, disposed := false } [7] = .error .streamBufferOverflow ∧
    endStream { chunks := [], len := 0, finished := true, disposed := false } = .error .endOfStream :=
  C5_append_after_finalize CSState.init []
    { chunks := [], len := 0, finished := true, disposed := false } rfl [7]

/-! ## The binary envelope (`serialize` / `parse` of `src/plain/serializer.ts`)

The interchange-text layer (`jsonSafeStringify` / `jsonSafeParser` from
`@internals/json`) is not part of the sources and the spec places
"text/JSON encoding itself" out of scope, so it is modelled from the spec
below: a printer and parser for the JSON interchange text.  JavaScript
runtime values are modelled by `JSVal`; numbers are modelled as exact
decimals `m / 10^e` (`JSNumber`), on which `Number.isInteger` is `e = 0`.
Strings carry their code points (`List Nat`), faithful for the ASCII
values that appear in the envelope format and its examples. -/

/-- Modelled from the spec: a JavaScript number as an exact decimal
`m / 10^e` (interchange text never carries non-decimal values). -/
structure JSNumber where
  m : Int
  e : Nat
deriving DecidableEq, Repr

/-- A JavaScript runtime value, one constructor per `typeof` kind (plus
`jnull` and the array/object split that `__$typeof` performs on
`'object'`). -/
inductive JSVal where
  | str (s : List Nat)
  | num (n : JSNumber)
  | jbool (b : Bool)
  | jnull
  | undef
  | bigint (i : Int)
  | func
  | symbol
  | arr (items : List JSVal)
  | obj (entries : List (List Nat × JSVal))
deriving Repr

/-- `__$typeof` (`src/@internals/util.ts`): the 1-byte type tag computed
from the runtime kind via `typeof`.  `typeof null` is `'object'` and
`Array.isArray(null)` is false, so `jnull` lands on `Object = 0x15`;
numbers split on `Number.isInteger`. -/
def jsTypeof : JSVal → Nat
  | .str _ => 0xF
  | .num n => if n.e = 0 then 0x10 else 0x11
  | .jbool _ => 0x12
  | .jnull => 0x15
  | .undef => 0x14
  | .bigint _ => 0x17
  | .func => 0x18
  | .symbol => 0x16
  | .arr _ => 0x19
  | .obj _ => 0x15

/-- `primitiveDataTypeValues` (`src/@internals/util.ts`): the eleven
recognized tag bytes, `0xF` through `0x19`. -/
def primitiveDataTypeValues : List Nat :=
  [0xF, 0x10, 0x11, 0x12, 0x13, 0x14, 0x15, 0x16, 0x17, 0x18, 0x19]

/-- ASCII code points of a Lean string literal. -/
def strBytes (s : String) : List Nat :=
  s.data.map Char.toNat

def natDigitsRev : Nat → Nat → List Nat
  | 0, _ => []
  | f + 1, n => if n < 10 then [n] else n % 10 :: natDigitsRev f (n / 10)

/-- Decimal digit bytes of a natural number. -/
def natDecBytes (n : Nat) : List Nat :=
  (natDigitsRev (n + 1) n).reverse.map (fun d => d + 48)

/-- Modelled from the spec: the JSON text of a `JSNumber` (integer part,
then `.` and the zero-padded fraction when `e ≠ 0`). -/
def numBytes (n : JSNumber) : List Nat :=
  let a := n.m.natAbs
  let sign : List Nat := if n.m < 0 then [45] else []
  if n.e = 0 then sign ++ natDecBytes a
  else
    let fds := natDecBytes (a % 10 ^ n.e)
    sign ++ natDecBytes (a / 10 ^ n.e) ++ [46] ++
      (List.replicate (n.e - fds.length) 48 ++ fds)

def escapeByte (c : Nat) : List Nat :=
  if c = 34 || c = 92 then [92, c] else [c]

/-- Modelled from the spec: a JSON string literal (quote, escape, quote). -/
def strLitBytes (s : List Nat) : List Nat :=
  34 :: ((s.map escapeByte).flatten ++ [34])

/-- Modelled from the spec: the JSON printer behind `jsonSafeStringify`.
One fuelled function covers the three mutually recursive jobs — `.inl v`
prints a value, `.inr (.inl items)` the comma-joined array items,
`.inr (.inr entries)` the comma-joined object entries.  As in
`JSON.stringify`, `undefined`/functions/symbols become `null` inside
arrays, are skipped inside objects, and fail at the top level; `BigInt`
always fails.  The fuel only forces totality: any fuel at least the term
size evaluates the printer fully. -/
def strfy : Nat → Sum JSVal (Sum (List JSVal) (List (List Nat × JSVal))) →
    Except ErrCode (List Nat)
  | 0, _ => .error .serializationFailed
  | f + 1, .inl v =>
    match v with
    | .str s => .ok (strLitBytes s)
    | .num n => .ok (numBytes n)
    | .jbool b => .ok (if b then strBytes "true" else strBytes "false")
    | .jnull => .ok (strBytes "null")
    | .undef => .error .serializationFailed
    | .func => .error .serializationFailed
    | .symbol => .error .serializationFailed
    | .bigint _ => .error .serializationFailed
    | .arr items =>
      match strfy f (.inr (.inl items)) with
      | .error e => .error e
      | .ok bs => .ok (91 :: (bs ++ [93]))
    | .obj entries =>
      match strfy f (.inr (.inr entries)) with
      | .error e => .error e
      | .ok bs => .ok (123 :: (bs ++ [125]))
  | f + 1, .inr (.inl items) =>
    match items with
    | [] => .ok []
    | it :: rest =>
      match (match it with
             | .undef => .ok (strBytes "null")
             | .func => .ok (strBytes "null")
             | .symbol => .ok (strBytes "null")
             | _ => strfy f (.inl it) : Except ErrCode (List Nat)) with
      | .error e => .error e
      | .ok hb =>
        match rest with
        | [] => .ok hb
        | _ :: _ =>
          match strfy f (.inr (.inl rest)) with
          | .error e => .error e
          | .ok tb => .ok (hb ++ 44 :: tb)
  | f + 1, .inr (.inr entries) =>
    match entries with
    | [] => .ok []
    | (k, v) :: rest =>
      match v with
      | .undef => strfy f (.inr (.inr rest))
      | .func => strfy f (.inr (.inr rest))
      | .symbol => strfy f (.inr (.inr rest))
      | _ =>
        match strfy f (.inl v) with
        | .error e => .error e
        | .ok vb =>
          match strfy f (.inr (.inr rest)) with
          | .error e => .error e
          | .ok rb =>
            .ok ((strLitBytes k ++ 58 :: vb) ++ (if rb.isEmpty then [] else 44 :: rb))

/-- Modelled from the spec: `jsonSafeStringify` — the JSON interchange
text of a value, or a serialization failure.  The fuel argument is a
totality artifact only: any fuel at least the nesting depth of `v`
evaluates the printer fully, exactly as `JSON.stringify` would. -/
def jsonSafeStringify (fuel : Nat) (v : JSVal) : Except ErrCode (List Nat) :=
  strfy fuel (.inl v)

/-- `serialize` (`src/plain/serializer.ts`): the interchange text prefixed
with the 1-byte type tag and the reserved `0x00` byte.  The fuel argument
is inherited from the modelled interchange layer. -/
def serialize (fuel : Nat) (v : JSVal) : Except ErrCode (List Nat) :=
  match jsonSafeStringify fuel v with
  | .error e => .error e
  | .ok t => .ok (jsTypeof v :: 0 :: t)

def isDigitByte (c : Nat) : Bool :=
  decide (48 ≤ c) && decide (c ≤ 57)

def takeDigits : List Nat → List Nat × List Nat
  | [] => ([], [])
  | c :: rest =>
    if isDigitByte c then
      let p := takeDigits rest
      (c :: p.1, p.2)
    else ([], c :: rest)

def digitsVal (ds : List Nat) : Nat :=
  ds.foldl (fun a c => a * 10 + (c - 48)) 0

/-- Modelled from the spec: parsing a JSON number (optional sign, integer
digits, optional fraction). -/
def parseNum (bs : List Nat) : Except ErrCode (JSNumber × List Nat) :=
  let sp : Bool × List Nat :=
    match bs with
    | 45 :: r => (true, r)
    | _ => (false, bs)
  let ip := takeDigits sp.2
  if ip.1.isEmpty then .error .parseFailed
  else
    match ip.2 with
    | 46 :: r =>
      let fp := takeDigits r
      if fp.1.isEmpty then .error .parseFailed
      else
        let mag : Int := (digitsVal ip.1 * 10 ^ fp.1.length + digitsVal fp.1 : Nat)
        .ok (⟨if sp.1 then -mag else mag, fp.1.length⟩, fp.2)
    | _ =>
      let mag : Int := (digitsVal ip.1 : Nat)
      .ok (⟨if sp.1 then -mag else mag, 0⟩, ip.2)

/-- Modelled from the spec: the body of a JSON string literal, after the
opening quote; `\x` escapes map to the escaped character. -/
def parseStrBody : Nat → List Nat → Except ErrCode (List Nat × List Nat)
  | 0, _ => .error .parseFailed
  | f + 1, bs =>
    match bs with
    | [] => .error .parseFailed
    | 34 :: rest => .ok ([], rest)
    | 92 :: c :: rest =>
      match parseStrBody f rest with
      | .error e => .error e
      | .ok (s, r) => .ok (c :: s, r)
    | c :: rest =>
      match parseStrBody f rest with
      | .error e => .error e
      | .ok (s, r) => .ok (c :: s, r)

/-- Modelled from the spec: the recursive-descent JSON parser behind
`jsonSafeParser`.  Job `0` parses one value, job `1` the items of a
non-empty array (after `[`), job `2` the entries of a non-empty object
(after `{`).  The fuel only forces totality. -/
def parseGo : Nat → Nat → List Nat → Except ErrCode (JSVal × List Nat)
  | 0, _, _ => .error .parseFailed
  | f + 1, 0, bs =>
    match bs with
    | 34 :: rest =>
      (match parseStrBody f rest with
       | .error e => .error e
       | .ok (s, r) => .ok (.str s, r))
    | 116 :: 114 :: 117 :: 101 :: r => .ok (.jbool true, r)
    | 102 :: 97 :: 108 :: 115 :: 101 :: r => .ok (.jbool false, r)
    | 110 :: 117 :: 108 :: 108 :: r => .ok (.jnull, r)
    | 91 :: 93 :: r => .ok (.arr [], r)
    | 91 :: r => parseGo f 1 r
    | 123 :: 125 :: r => .ok (.obj [], r)
    | 123 :: r => parseGo f 2 r
    | _ =>
      (match parseNum bs with
       | .error e => .error e
       | .ok (n, r) => .ok (.num n, r))
  | f + 1, 1, bs =>
    (match parseGo f 0 bs with
     | .error e => .error e
     | .ok (v, r) =>
       match r with
       | 44 :: r2 =>
         (match parseGo f 1 r2 with
          | .ok (.arr vs, r3) => .ok (.arr (v :: vs), r3)
          | .ok _ => .error .parseFailed
          | .error e => .error e)
       | 93 :: r2 => .ok (.arr [v], r2)
       | _ => .error .parseFailed)
  | f + 1, 2, bs =>
    (match bs with
     | 34 :: r =>
       (match parseStrBody f r with
        | .error e => .error e
        | .ok (k, r1) =>
          match r1 with
          | 58 :: r2 =>
            (match parseGo f 0 r2 with
             | .error e => .error e
             | .ok (v, r3) =>
               match r3 with
               | 44 :: r4 =>
                 (match parseGo f 2 r4 with
                  | .ok (.obj kvs, r5) => .ok (.obj ((k, v) :: kvs), r5)
                  | .ok _ => .error .parseFailed
                  | .error e => .error e)
               | 125 :: r4 => .ok (.obj [(k, v)], r4)
               | _ => .error .parseFailed)
          | _ => .error .parseFailed)
     | _ => .error .parseFailed)
  | _ + 1, _ + 3, _ => .error .parseFailed

/-- Modelled from the spec: `jsonSafeParser` — parse the interchange text,
requiring the whole input to be consumed. -/
def jsonSafeParser (bs : List Nat) : Except ErrCode JSVal :=
  match parseGo (2 * bs.length + 2) 0 bs with
  | .error e => .error e
  | .ok (v, []) => .ok v
  | .ok (_, _ :: _) => .error .parseFailed

/-- `parse` (`src/plain/serializer.ts`): rejects inputs shorter than 3
bytes (`ERR_OUT_OF_RANGE`), an unrecognized tag byte or a nonzero reserved
byte (`ERR_INVALID_ARGUMENT`), then parses the remaining bytes as
interchange text and returns the `(tag, value)` pair. -/
def parsePkg (input : List Nat) : Except ErrCode (Nat × JSVal) :=
  if input.length < 3 then .error .outOfRange
  else
    match input with
    | b0 :: b1 :: rest =>
      if !(primitiveDataTypeValues.contains b0) then .error .invalidArgument
      else if b1 ≠ 0 then .error .invalidArgument
      else
        match jsonSafeParser rest with
        | .error e => .error e
        | .ok v => .ok (b0, v)
    | _ => .error .outOfRange

/-- Composition `parse(serialize(v))` — the decode-of-encode pipeline. -/
def decodeEncoded (fuel : Nat) (v : JSVal) : Except ErrCode (Nat × JSVal) :=
  match serialize fuel v with
  | .error e => .error e
  | .ok bs => parsePkg bs

def vStr : JSVal := .str (strBytes "a")

def vInt : JSVal := .num ⟨42, 0⟩

def vFloat : JSVal := .num ⟨42, 1⟩

def vBool : JSVal := .jbool true

def vArr : JSVal := .arr [.num ⟨1, 0⟩, .num ⟨2, 0⟩]

def vObj : JSVal := .obj [(strBytes "k", .num ⟨1, 0⟩)]

/-- For each value in `{"a", 42, 4.2, true, [1,2], {"k":1}}`:
`parse(serialize(v))` returns exactly the pair `(tag(v), v)`, where the
tag is `__$typeof(v)`; and `serialize` emits exactly
`[tag][0x00][UTF-8 bytes of the JSON interchange text]` (the explicit byte
lists below: tag byte, zero byte, then the ASCII of `"a"`, `42`, `4.2`,
`true`, `[1,2]`, `{"k":1}`). -/
theorem C2_decode_encode_roundtrip :
    decodeEncoded 16 vStr = .ok (jsTypeof vStr, vStr) ∧
    decodeEncoded 16 vInt = .ok (jsTypeof vInt, vInt) ∧
    decodeEncoded 16 vFloat = .ok (jsTypeof vFloat, vFloat) ∧
    decodeEncoded 16 vBool = .ok (jsTypeof vBool, vBool) ∧
    decodeEncoded 16 vArr = .ok (jsTypeof vArr, vArr) ∧
    decodeEncoded 16 vObj = .ok (jsTypeof vObj, vObj) ∧
    serialize 16 vStr = .ok [15, 0, 34, 97, 34] ∧
    serialize 16 vInt = .ok [16, 0, 52, 50] ∧
    serialize 16 vFloat = .ok [17, 0, 52, 46, 50] ∧
    serialize 16 vBool = .ok [18, 0, 116, 114, 117, 101] ∧
    serialize 16 vArr = .ok [25, 0, 91, 49, 44, 50, 93] ∧
    serialize 16 vObj = .ok [21, 0, 123, 34, 107, 34, 58, 49, 125] :=
  ⟨rfl, rfl, rfl, rfl, rfl, rfl, rfl, rfl, rfl, rfl, rfl, rfl⟩

/-- `serialize` never emits the `Null` tag `0x13`: `__$typeof` never
returns it (the value `null` has `typeof 'object'` and is tagged
`Object = 0x15`), so any successful encoding starts with a tag other than
`0x13` — yet `0x13` is among the eleven tags `parse` recognizes, and a
buffer carrying it (here `[0x13, 0x00]` + ASCII `null`) decodes fine.  One
recognized tag is therefore unreachable on encode. -/
theorem C9_null_tag_unreachable :
    (∀ v : JSVal, jsTypeof v ≠ 0x13) ∧
    (∀ (fuel : Nat) (v : JSVal) (out : List Nat),
      serialize fuel v = .ok out → out.head? = some (jsTypeof v)) ∧
    primitiveDataTypeValues.contains 0x13 = true ∧
    parsePkg [0x13, 0, 110, 117, 108, 108] = .ok (0x13, .jnull) := by
  refine ⟨?_, ?_, by decide, by rfl⟩
  · intro v
    cases v with
    | num n =>
      by_cases he : n.e = 0 <;> simp [jsTypeof, he]
    | str s => simp [jsTypeof]
    | jbool b => simp [jsTypeof]
    | jnull => simp [jsTypeof]
    | undef => simp [jsTypeof]
    | bigint i => simp [jsTypeof]
    | func => simp [jsTypeof]
    | symbol => simp [jsTypeof]
    | arr items => simp [jsTypeof]
    | obj entries => simp [jsTypeof]
  · intro fuel v out h
    unfold serialize at h
    split at h
    · cases h
    · cases h
      rfl

/-- Witness for `C9_null_tag_unreachable`: encoding `null` itself emits
tag `0x15`, not `0x13`. -/
theorem C9_null_tag_unreachable_witness :
    ([21, 0, 110, 117, 108, 108] : List Nat).head? = some (jsTypeof .jnull) :=
  C9_null_tag_unreachable.2.1 16 .jnull [21, 0, 110, 117, 108, 108] rfl

/-! ## The packed key material (`SymmetricKey`) and the cipher wrapper -/

/-- Does the character list contain `t` as a contiguous run? -/
def hasSubstr (t : List Char) : List Char → Bool
  | [] => t.isEmpty
  | c :: rest => t.isPrefixOf (c :: rest) || hasSubstr t rest

/-- `s.includes(t)` of JavaScript: contiguous substring containment. -/
def strIncludes (s t : String) : Bool :=
  hasSubstr t.data s.data

/-- `s.startsWith(t)` of JavaScript. -/
def strStarts (s t : String) : Bool :=
  t.data.isPrefixOf s.data

/-- `SymmetricKeyOptions` (`key.ts` half of
`src/@internals/crypto/symmetric/aes.ts`).  `inputEncoding` is omitted:
the model takes key bytes directly. -/
structure SymmetricKeyOptions where
  usages : List String := []
  algorithm : Option String := none
  ivLength : Option Nat := none
  authTagLength : Option Nat := none
deriving DecidableEq, Repr

/-- JavaScript truthiness of `options.algorithm` (absent or the empty
string are falsy). -/
def truthyAlg : Option String → Bool
  | none => false
  | some s => !(s == "")

/-- JavaScript truthiness of `options.ivLength` (absent or `0` are falsy). -/
def truthyLen : Option Nat → Bool
  | none => false
  | some n => !(n == 0)

/-- The packed key material: the secret buffer `$key`, the configured
`$keyLength` and the options (after the constructor's IV defaulting). -/
structure SymmetricKey where
  key : List Nat
  keyLength : Nat
  options : SymmetricKeyOptions
deriving DecidableEq, Repr

/-- The `SymmetricKey` constructor: when an algorithm is given and no
(truthy) `ivLength`, algorithms of the `aes-` family default the IV length
to 16 and `chacha20` to 12; then the secret must be at least `keyLength`
bytes (`ERR_INVALID_ARGUMENT` otherwise). -/
def SymmetricKey.create (key : List Nat) (keyLength : Nat)
    (options : SymmetricKeyOptions) : Except ErrCode SymmetricKey :=
  let opts :=
    if truthyAlg options.algorithm && !(truthyLen options.ivLength) then
      match options.algorithm with
      | some a =>
        if strStarts a "aes-" then { options with ivLength := some 16 }
        else if strStarts a "chacha20" then { options with ivLength := some 12 }
        else options
      | none => options
    else options
  if key.length < keyLength then .error .invalidArgument
  else .ok { key := key, keyLength := keyLength, options := opts }

/-- The `algorithm` getter: `` ` ${algorithm} ` ``.slice(1, -1)` — an absent
algorithm becomes the string `"undefined"`. -/
def SymmetricKey.algorithmStr (sk : SymmetricKey) : String :=
  match sk.options.algorithm with
  | some a => a
  | none => "undefined"

/-- The `ivLength` getter: the configured value, defaulting to 16 for
`128`-bit algorithm names and 32 otherwise. -/
def SymmetricKey.ivLen (sk : SymmetricKey) : Nat :=
  sk.options.ivLength.getD (if strIncludes sk.algorithmStr "128" then 16 else 32)

/-- `SymmetricKey.last(offset)`: the trailing `offset` bytes of the secret
buffer; fails `ERR_INVALID_ARGUMENT` when `offset` exceeds its length. -/
def SymmetricKey.last (sk : SymmetricKey) (offset : Nat) : Except ErrCode (List Nat) :=
  if sk.key.length < offset then .error .invalidArgument
  else .ok (sk.key.drop (sk.key.length - offset))

/-- `SymmetricKey.iv()`: `null` when the buffer is exactly the key, or too
short for `keyLength + ivLength`; otherwise the packed IV view
`bytes[keyLength, keyLength + ivLength)`. -/
def SymmetricKey.iv (sk : SymmetricKey) : Option (List Nat) :=
  if sk.keyLength = sk.key.length then none
  else if sk.key.length < sk.keyLength + sk.ivLen then none
  else some ((sk.key.drop sk.keyLength).take sk.ivLen)

/-- `SymmetricKey.authTag()`: `null` when the buffer is exactly the key;
otherwise the tag length defaults to 16 for `128`-bit algorithm names and
32 otherwise, and the view is
`bytes[keyLength + ivLength, keyLength + ivLength + tagLength)` when the
buffer is long enough, else `null`. -/
def SymmetricKey.authTag (sk : SymmetricKey) : Option (List Nat) :=
  if sk.keyLength = sk.key.length then none
  else
    let o := sk.options.authTagLength.getD
      (if strIncludes sk.algorithmStr "128" then 16 else 32)
    if sk.key.length < sk.keyLength + sk.ivLen + o then none
    else
      some ((sk.key.drop (sk.keyLength +
        sk.options.ivLength.getD
          (if strIncludes sk.algorithmStr "128" then 16 else 32))).take o)

/-- `SymmetricKey.valueOf()` / `getKey()`: the first `keyLength` bytes. -/
def SymmetricKey.valueOf (sk : SymmetricKey) : List Nat :=
  sk.key.take sk.keyLength

/-- The external cryptographic collaborators (spec §6): the keyed hash of
`cryptx-sdk` (`hashObject`), its plain hash used for the algorithm
identifier (`sha512`) and the block cipher of `node:crypto`
(`createCipheriv` + `update` + `final`).  The model treats them as opaque
functions supplied by the environment. -/
structure ExternalCrypto where
  hmacFn : List Nat → List Nat → List Nat
  shaFn : String → List Nat
  cipherFn : String → List Nat → List Nat → List Nat → List Nat

/-- An `AES` instance: its `SymmetricKey`, the merged option `variant`, and
the inherited `ChunkStream` state. -/
structure AESState where
  key : SymmetricKey
  variant : String
  stream : CSState
deriving DecidableEq, Repr

/-- The `AES` constructor for a `SymmetricKey` argument: the key must carry
both `encrypt` and `decrypt` usages (`ERR_UNSUPPORTED_OPERATION`), a truthy
key algorithm must match a truthy requested variant
(`ERR_INVALID_ALGORITHM`), and `gcm` variants need a non-null
authentication tag (`ERR_INVALID_AUTH_TAG`).  The variant defaults to
`aes-256-cbc` (`DEFAULT_OPTIONS`). -/
def AES.create (key : SymmetricKey) (variant : Option String) :
    Except ErrCode AESState :=
  let v := variant.getD "aes-256-cbc"
  if !(key.options.usages.contains "encrypt" && key.options.usages.contains "decrypt") then
    .error .unsupportedOperation
  else if !(key.algorithmStr == "") && !(key.algorithmStr == v) && !(v == "") then
    .error .invalidAlgorithm
  else if strIncludes v "gcm" && (key.authTag matches none) then
    .error .invalidAuthTag
  else .ok { key := key, variant := v, stream := CSState.init }

/-- `AES.update` for byte input: feeds the data into the inherited stream;
fails `ERR_STREAM_DISPOSED` when no longer writable. -/
def AES.update (a : AESState) (data : List Nat) : Except ErrCode AESState :=
  if a.stream.finished then .error .streamDisposed
  else
    match acceptChunk a.stream data with
    | .error e => .error e
    | .ok st => .ok { a with stream := st }

/-- `AES.encrypt()` (buffer encoding): requires a writable stream, an IV
view that exists and is at least 16 bytes (`ERR_INVALID_IV_LENGTH`), for
`gcm` variants an authentication tag of at least 16 bytes
(`ERR_INVALID_AUTH_TAG`), then delegates
`cipher.update(this.end()) + cipher.final()` to the external cipher. -/
def AES.encryptOp (ext : ExternalCrypto) (a : AESState) : Except ErrCode (List Nat) :=
  if a.stream.finished then .error .streamDisposed
  else
    match a.key.iv with
    | none => .error .invalidIVLength
    | some iv =>
      if iv.length < 16 then .error .invalidIVLength
      else if strIncludes a.variant "gcm" then
        match a.key.authTag with
        | none => .error .invalidAuthTag
        | some tag =>
          if tag.length < 16 then .error .invalidAuthTag
          else
            match endStream a.stream with
            | .error e => .error e
            | .ok (data, _) => .ok (ext.cipherFn a.variant a.key.valueOf iv data)
      else
        match endStream a.stream with
        | .error e => .error e
        | .ok (data, _) => .ok (ext.cipherFn a.variant a.key.valueOf iv data)

/-! ## The `EncryptedTransporter` one-shot state machine -/

/-- The caller-supplied HMAC key: either a JavaScript string or a byte
buffer (`string | Uint8Array`). -/
inductive HmacKeyArg where
  | ofString (s : String)
  | ofBytes (b : List Nat)
deriving DecidableEq, Repr

/-- JavaScript truthiness of `this.#props.hmacKey`: absent and the empty
string are falsy; any buffer object (even empty) is truthy. -/
def hmacKeyTruthy : Option HmacKeyArg → Bool
  | none => false
  | some (.ofString s) => !(s == "")
  | some (.ofBytes _) => true

/-- The bytes of a supplied HMAC key (`Buffer.isBuffer(k) ? k :
Buffer.from(k)`). -/
def hmacKeyBytes : HmacKeyArg → List Nat
  | .ofString s => strBytes s
  | .ofBytes b => b

/-- `EncryptedTransporterProps`: the retained constructor arguments.  The
original payload becomes `none` once `begin()` releases it. -/
structure ETProps where
  originalPayload : Option (List Nat)
  algorithm : String
  hmacKey : Option HmacKeyArg
  password : List Nat
deriving DecidableEq, Repr

/-- An `EncryptedTransporter` instance: the `#ready` flag, the three
`Ready`-only fields and the retained props. -/
structure EncryptedTransporter where
  ready : Bool
  signature : Option (List Nat)
  transporter : Option Transporter
  algorithmIdentifier : Option (List Nat)
  maxLength : Nat
  props : ETProps
deriving DecidableEq, Repr

/-- The `EncryptedTransporter` constructor: stores the props and the
effective `#maxLength` (`_maxBlockSize || MAX_CHUNK_SIZE`); nothing is
derived yet and the instance is not ready. -/
def EncryptedTransporter.create (MCS : Nat) (payload : List Nat)
    (password : List Nat) (hmacKey : Option HmacKeyArg) (algorithm : String)
    (maxBlockSize : Option Nat) : EncryptedTransporter :=
  { ready := false, signature := none, transporter := none,
    algorithmIdentifier := none,
    maxLength := effectiveMax MCS maxBlockSize,
    props := { originalPayload := some payload, algorithm := algorithm,
               hmacKey := hmacKey, password := password } }

/-- The `algorithm` accessor: fails `ERR_UNSUPPORTED_OPERATION` unless the
instance is ready and the identifier is present (the base64 rendering of
the returned bytes is elided). -/
def EncryptedTransporter.algorithmId (t : EncryptedTransporter) :
    Except ErrCode (List Nat) :=
  match t.ready, t.algorithmIdentifier with
  | true, some a => .ok a
  | _, _ => .error .unsupportedOperation

/-- The `transporter` accessor: fails `ERR_UNSUPPORTED_OPERATION` unless
ready and present. -/
def EncryptedTransporter.getTransporter (t : EncryptedTransporter) :
    Except ErrCode Transporter :=
  match t.ready, t.transporter with
  | true, some tr => .ok tr
  | _, _ => .error .unsupportedOperation

/-- The `signature` accessor: fails `ERR_UNSUPPORTED_OPERATION` unless
ready and present (base64 rendering elided). -/
def EncryptedTransporter.getSignature (t : EncryptedTransporter) :
    Except ErrCode (List Nat) :=
  match t.ready, t.signature with
  | true, some s => .ok s
  | _, _ => .error .unsupportedOperation

/-- `this.#props.algorithm.includes('128') ? 16 : 32` — the key length the
algorithm name selects. -/
def keyLenOf (alg : String) : Nat :=
  if strIncludes alg "128" then 16 else 32

/-- `const hk = this.#props.hmacKey ? (Buffer.isBuffer(...) ? ... :
Buffer.from(...)) : sk.last(14)`: the supplied HMAC key when truthy (a
non-empty string or any buffer), else the trailing 14 bytes of the
secret. -/
def pickHmacKey (hk : Option HmacKeyArg) (sk : SymmetricKey) :
    Except ErrCode (List Nat) :=
  if hmacKeyTruthy hk then
    match hk with
    | some k => .ok (hmacKeyBytes k)
    | none => .error .jsCrash
  else sk.last 14

/-- `EncryptedTransporter.begin()` (`#DoBeginTransporter`): fails
`ERR_UNSUPPORTED_OPERATION` when already ready; derives the
`SymmetricKey` from the password sized by the algorithm name (16 for
`128`-bit variants, else 32) with usages `encrypt`/`decrypt`; picks the
signing key — the supplied HMAC key when truthy, else the trailing 14
bytes of the secret (`sk.last(14)`); signs the original payload with the
external keyed hash; encrypts it through the `AES` wrapper; chunks the
ciphertext with a `Transporter` under `#maxLength`; releases the
plaintext; stores the hashed algorithm name; and becomes ready. -/
def EncryptedTransporter.begin (MCS : Nat) (ext : ExternalCrypto)
    (t : EncryptedTransporter) : Except ErrCode EncryptedTransporter :=
  if t.ready then .error .unsupportedOperation
  else
    match t.props.originalPayload with
    | none => .error .jsCrash
    | some payload =>
      match SymmetricKey.create t.props.password (keyLenOf t.props.algorithm)
          { usages := ["encrypt", "decrypt"],
            algorithm := some t.props.algorithm,
            ivLength := none, authTagLength := none } with
      | .error e => .error e
      | .ok sk =>
        match pickHmacKey t.props.hmacKey sk with
        | .error e => .error e
        | .ok hk =>
          match AES.create sk (some t.props.algorithm) with
          | .error e => .error e
          | .ok aes =>
            match AES.update aes payload with
            | .error e => .error e
            | .ok aes =>
              match AES.encryptOp ext aes with
              | .error e => .error e
              | .ok ct =>
                match Transporter.create MCS ct (some t.maxLength) with
                | .error e => .error e
                | .ok tr =>
                  .ok { t with
                        ready := true,
                        signature := some (ext.hmacFn payload hk),
                        transporter := some tr,
                        algorithmIdentifier := some (ext.shaFn t.props.algorithm),
                        props := { t.props with originalPayload := none } }

theorem beginShortSecret (MCS : Nat) (ext : ExternalCrypto) (p pw : List Nat)
    (hk : Option HmacKeyArg) (mbs : Option Nat) (alg : String)
    (hpre : strStarts alg "aes-" = true)
    (hgcm : strIncludes alg "gcm" = false)
    (hne : (alg == "") = false)
    (hge : keyLenOf alg ≤ pw.length)
    (hlt : pw.length < keyLenOf alg + 16) :
    SymmetricKey.create pw (keyLenOf alg)
      { usages := ["encrypt", "decrypt"], algorithm := some alg,
        ivLength := none, authTagLength := none } =
      .ok { key := pw, keyLength := keyLenOf alg,
            options := { usages := ["encrypt", "decrypt"], algorithm := some alg,
                         ivLength := some 16, authTagLength := none } } ∧
    SymmetricKey.iv
      { key := pw, keyLength := keyLenOf alg,
        options := { usages := ["encrypt", "decrypt"], algorithm := some alg,
                     ivLength := some 16, authTagLength := none } } = none ∧
    EncryptedTransporter.begin MCS ext
      (EncryptedTransporter.create MCS p pw hk alg mbs) = .error .invalidIVLength := by
  have hcreate : SymmetricKey.create pw (keyLenOf alg)
      { usages := ["encrypt", "decrypt"], algorithm := some alg,
        ivLength := none, authTagLength := none } =
      .ok { key := pw, keyLength := keyLenOf alg,
            options := { usages := ["encrypt", "decrypt"], algorithm := some alg,
                         ivLength := some 16, authTagLength := none } } := by
    simp only [SymmetricKey.create]
    rw [if_neg (by omega)]
    simp [truthyAlg, truthyLen, hne, hpre]
  have hiv : SymmetricKey.iv
      { key := pw, keyLength := keyLenOf alg,
        options := { usages := ["encrypt", "decrypt"], algorithm := some alg,
                     ivLength := some 16, authTagLength := none } } = none := by
    simp only [SymmetricKey.iv, SymmetricKey.ivLen, Option.getD_some]
    by_cases hA : keyLenOf alg = pw.length
    · rw [if_pos hA]
    · rw [if_neg hA, if_pos hlt]
  refine ⟨hcreate, hiv, ?_⟩
  simp only [EncryptedTransporter.begin, EncryptedTransporter.create]
  rw [hcreate]
  simp only [Bool.false_eq_true, if_false]
  obtain ⟨hkv, hkeq⟩ : ∃ v,
      pickHmacKey hk
        { key := pw, keyLength := keyLenOf alg,
          options := { usages := ["encrypt", "decrypt"], algorithm := some alg,
                       ivLength := some 16, authTagLength := none } } = .ok v := by
    unfold pickHmacKey
    by_cases hket : hmacKeyTruthy hk = true
    · cases hk with
      | none => simp [hmacKeyTruthy] at hket
      | some k => exact ⟨hmacKeyBytes k, by rw [if_pos hket]⟩
    · refine ⟨pw.drop (pw.length - 14), ?_⟩
      rw [if_neg hket]
      simp only [SymmetricKey.last]
      have h14 : 14 ≤ keyLenOf alg := by
        unfold keyLenOf
        split <;> omega
      rw [if_neg (by show ¬ pw.length < 14; omega)]
  rw [hkeq]
  simp only []
  have hAES : AES.create
      { key := pw, keyLength := keyLenOf alg,
        options := { usages := ["encrypt", "decrypt"], algorithm := some alg,
                     ivLength := some 16, authTagLength := none } } (some alg) =
      .ok { key := { key := pw, keyLength := keyLenOf alg,
                     options := { usages := ["encrypt", "decrypt"], algorithm := some alg,
                                  ivLength := some 16, authTagLength := none } },
            variant := alg, stream := CSState.init } := by
    simp [AES.create, SymmetricKey.algorithmStr, hgcm, hne]
  rw [hAES]
  simp only []
  have hupd : AES.update
      { key := { key := pw, keyLength := keyLenOf alg,
                 options := { usages := ["encrypt", "decrypt"], algorithm := some alg,
                              ivLength := some 16, authTagLength := none } },
        variant := alg, stream := CSState.init } p =
      .ok { key := { key := pw, keyLength := keyLenOf alg,
                     options := { usages := ["encrypt", "decrypt"], algorithm := some alg,
                                  ivLength := some 16, authTagLength := none } },
            variant := alg,
            stream := { chunks := [p], len := 0 + p.length, finished := false, disposed := false } } := rfl
  rw [hupd]
  simp only []
  have henc : AES.encryptOp ext
      { key := { key := pw, keyLength := keyLenOf alg,
                 options := { usages := ["encrypt", "decrypt"], algorithm := some alg,
                              ivLength := some 16, authTagLength := none } },
        variant := alg,
        stream := { chunks := [p], len := 0 + p.length, finished := false, disposed := false } } =
      .error .invalidIVLength := by
    simp only [AES.encryptOp]
    rw [hiv]
    rfl
  rw [henc]

/-- The external primitives instantiated for concrete witnesses: the keyed
hash returns its key, the plain hash a fixed byte, the cipher its input. -/
def extW : ExternalCrypto :=
  { hmacFn := fun _ k => k, shaFn := fun _ => [9], cipherFn := fun _ _ _ d => d }

/-- For the two CBC variants, a password of at least `keyLength` but fewer
than `keyLength + 16` bytes builds the `KeyMaterial` fine, yet its packed
IV view is `null`, and `begin()` then fails with `ERR_INVALID_IV_LENGTH`:
ciphertext is only ever produced from secrets of at least
`keyLength + 16` bytes (48 for `aes-256-cbc`, 32 for `aes-128-cbc`). -/
theorem C8_short_secret_invalid_iv (MCS : Nat) (ext : ExternalCrypto)
    (p pw : List Nat) (hk : Option HmacKeyArg) (mbs : Option Nat) (alg : String)
    (halg : alg = "aes-128-cbc" ∨ alg = "aes-256-cbc")
    (hge : keyLenOf alg ≤ pw.length)
    (hlt : pw.length < keyLenOf alg + 16) :
    (∃ sk, SymmetricKey.create pw (keyLenOf alg)
        { usages := ["encrypt", "decrypt"], algorithm := some alg,
          ivLength := none, authTagLength := none } = .ok sk ∧
      sk.iv = none) ∧
    EncryptedTransporter.begin MCS ext
      (EncryptedTransporter.create MCS p pw hk alg mbs) = .error .invalidIVLength := by
  rcases halg with rfl | rfl <;>
  · obtain ⟨h1, h2, h3⟩ :=
      beginShortSecret MCS ext p pw hk mbs _ (by decide) (by decide) (by decide) hge hlt
    exact ⟨⟨_, h1, h2⟩, h3⟩

/-- Witness for `C8_short_secret_invalid_iv`: a 40-byte secret with
`aes-256-cbc` (whose key length is 32). -/
theorem C8_short_secret_invalid_iv_witness :
    (∃ sk, SymmetricKey.create (List.range 40) (keyLenOf "aes-256-cbc")
        { usages := ["encrypt", "decrypt"], algorithm := some "aes-256-cbc",
          ivLength := none, authTagLength := none } = .ok sk ∧
      sk.iv = none) ∧
    EncryptedTransporter.begin 65536 extW
      (EncryptedTransporter.create 65536 [1] (List.range 40) none "aes-256-cbc" none) =
      .error .invalidIVLength :=
  C8_short_secret_invalid_iv 65536 extW [1] (List.range 40) none none "aes-256-cbc"
    (Or.inr rfl) (by decide) (by decide)

theorem symCreate_fields (key : List Nat) (kl : Nat) (opts : SymmetricKeyOptions)
    (sk : SymmetricKey) (h : SymmetricKey.create key kl opts = .ok sk) :
    sk.key = key ∧ sk.keyLength = kl ∧ kl ≤ key.length := by
  simp only [SymmetricKey.create] at h
  split at h
  · exact Except.noConfusion h
  · injection h with h2
    subst h2
    rename_i hlen
    exact ⟨rfl, rfl, by omega⟩

theorem begin_ok_inversion (MCS : Nat) (ext : ExternalCrypto)
    (t t1 : EncryptedTransporter)
    (h : EncryptedTransporter.begin MCS ext t = .ok t1) :
    ∃ payload sk hkv,
      t.ready = false ∧
      t.props.originalPayload = some payload ∧
      SymmetricKey.create t.props.password (keyLenOf t.props.algorithm)
        { usages := ["encrypt", "decrypt"], algorithm := some t.props.algorithm,
          ivLength := none, authTagLength := none } = .ok sk ∧
      pickHmacKey t.props.hmacKey sk = .ok hkv ∧
      t1.ready = true ∧
      t1.signature = some (ext.hmacFn payload hkv) := by
  unfold EncryptedTransporter.begin at h
  split at h
  · exact Except.noConfusion h
  rename_i hready
  split at h
  · exact Except.noConfusion h
  rename_i payload hpay
  split at h
  · exact Except.noConfusion h
  rename_i sk hsk
  split at h
  · exact Except.noConfusion h
  rename_i hkv hpick
  split at h
  · exact Except.noConfusion h
  rename_i aes hAES
  split at h
  · exact Except.noConfusion h
  rename_i aes2 hupd
  split at h
  · exact Except.noConfusion h
  rename_i ct hct
  split at h
  · exact Except.noConfusion h
  rename_i tr htr
  injection h with h2
  subst h2
  refine ⟨payload, sk, hkv, ?_, hpay, hsk, hpick, rfl, rfl⟩
  simp only [Bool.not_eq_true] at hready
  exact hready

/-- The signing key named by the amended claim: the supplied HMAC key when
truthy (a buffer or non-empty string), else the trailing 14 bytes of the
secret. -/
def signingKeyModel (secret : List Nat) (hk : Option HmacKeyArg) : List Nat :=
  match hk with
  | some (.ofString s) => if s == "" then secret.drop (secret.length - 14) else strBytes s
  | some (.ofBytes b) => b
  | none => secret.drop (secret.length - 14)

theorem pickHmacKey_eq (hk : Option HmacKeyArg) (sk : SymmetricKey)
    (h14 : 14 ≤ sk.key.length) :
    pickHmacKey hk sk = .ok (signingKeyModel sk.key hk) := by
  unfold pickHmacKey signingKeyModel hmacKeyTruthy SymmetricKey.last
  cases hk with
  | none =>
    simp only [Bool.false_eq_true, if_false]
    rw [if_neg (by omega)]
  | some k =>
    cases k with
    | ofString s =>
      by_cases hs : s == ""
      · simp only [hs, Bool.not_true, Bool.false_eq_true, if_false, if_pos]
        rw [if_neg (by omega)]
      · simp only [hs]
        rfl
    | ofBytes b => rfl

/-- The `SecureEnvelope` one-shot state machine: on a freshly constructed
`EncryptedTransporter` every `Ready`-only accessor (`algorithm`,
`signature`, `transporter`) fails with `ERR_UNSUPPORTED_OPERATION`, and
once `begin()` has completed successfully, a second `begin()` on the
resulting instance fails with `ERR_UNSUPPORTED_OPERATION`. -/
theorem C4_one_shot_state_machine (MCS : Nat) (ext : ExternalCrypto) (p pw : List Nat)
    (hk : Option HmacKeyArg) (alg : String) (mbs : Option Nat)
    (t1 : EncryptedTransporter)
    (h : EncryptedTransporter.begin MCS ext
      (EncryptedTransporter.create MCS p pw hk alg mbs) = .ok t1) :
    EncryptedTransporter.algorithmId
      (EncryptedTransporter.create MCS p pw hk alg mbs) = .error .unsupportedOperation ∧
    EncryptedTransporter.getSignature
      (EncryptedTransporter.create MCS p pw hk alg mbs) = .error .unsupportedOperation ∧
    EncryptedTransporter.getTransporter
      (EncryptedTransporter.create MCS p pw hk alg mbs) = .error .unsupportedOperation ∧
    EncryptedTransporter.begin MCS ext t1 = .error .unsupportedOperation := by
  obtain ⟨payload, sk, hkv, _, _, _, _, hr, _⟩ := begin_ok_inversion MCS ext _ t1 h
  refine ⟨rfl, rfl, rfl, ?_⟩
  unfold EncryptedTransporter.begin
  rw [if_pos hr]

/-- Amended C6: when `begin()` completes, the stored signature is the
external keyed hash of the original payload under the signing key
`signingKeyModel`: the caller-supplied `hmacKey` when it is truthy (a
buffer, or a non-empty string), and otherwise — when it is absent **or an
empty string** — the trailing 14 bytes of the derived `KeyMaterial`
secret buffer (`last(14)`), which is then exactly 14 bytes long. -/
theorem C6_signing_key (MCS : Nat) (ext : ExternalCrypto) (p pw : List Nat)
    (hk : Option HmacKeyArg) (alg : String) (mbs : Option Nat)
    (t1 : EncryptedTransporter)
    (h : EncryptedTransporter.begin MCS ext
      (EncryptedTransporter.create MCS p pw hk alg mbs) = .ok t1) :
    t1.signature = some (ext.hmacFn p (signingKeyModel pw hk)) ∧
    (hmacKeyTruthy hk = false →
      signingKeyModel pw hk = pw.drop (pw.length - 14) ∧
      (signingKeyModel pw hk).length = 14) := by
  obtain ⟨payload, sk, hkv, _, hpay, hsk, hpick, _, hsig⟩ :=
    begin_ok_inversion MCS ext _ t1 h
  simp only [EncryptedTransporter.create] at hpay hsk hpick
  obtain rfl : p = payload := by
    injection hpay
  obtain ⟨hkey, hklen, hle⟩ := symCreate_fields _ _ _ _ hsk
  have h14 : 14 ≤ pw.length := by
    have : 14 ≤ keyLenOf alg := by
      unfold keyLenOf
      split <;> omega
    omega
  have hpick2 : pickHmacKey hk sk = .ok (signingKeyModel pw hk) := by
    rw [pickHmacKey_eq hk sk (by rw [hkey]; exact h14), hkey]
  rw [hpick2] at hpick
  injection hpick with hkv2
  constructor
  · rw [hsig, hkv2]
  · intro hfalse
    constructor
    · unfold signingKeyModel
      cases hk with
      | none => rfl
      | some k =>
        cases k with
        | ofString s =>
          simp only [hmacKeyTruthy, Bool.not_eq_false', beq_iff_eq] at hfalse
          subst hfalse
          simp [signingKeyModel]
        | ofBytes b => simp [hmacKeyTruthy] at hfalse
    · have hdl : (pw.drop (pw.length - 14)).length = 14 := by
        simp only [List.length_drop]
        omega
      unfold signingKeyModel
      cases hk with
      | none => exact hdl
      | some k =>
        cases k with
        | ofString s =>
          simp only [hmacKeyTruthy, Bool.not_eq_false', beq_iff_eq] at hfalse
          subst hfalse
          simp only [signingKeyModel]
          simp [hdl]
        | ofBytes b => simp [hmacKeyTruthy] at hfalse

/-- The fixture instance for the witnesses: payload `[1,2,3]`, a 48-byte
password, no HMAC key, `aes-256-cbc`, default chunk size. -/
def t0W : EncryptedTransporter :=
  EncryptedTransporter.create 65536 [1, 2, 3] (List.range 48) none "aes-256-cbc" none

/-- The fixture after a successful `begin()`. -/
def t1W : EncryptedTransporter :=
  (EncryptedTransporter.begin 65536 extW t0W).toOption.getD t0W

/-- Witness for `C4_one_shot_state_machine`: the fixture's `begin()`
succeeds, its accessors failed beforehand, and a second `begin()` fails. -/
theorem C4_one_shot_state_machine_witness :
    EncryptedTransporter.algorithmId t0W = .error .unsupportedOperation ∧
    EncryptedTransporter.getSignature t0W = .error .unsupportedOperation ∧
    EncryptedTransporter.getTransporter t0W = .error .unsupportedOperation ∧
    EncryptedTransporter.begin 65536 extW t1W = .error .unsupportedOperation :=
  C4_one_shot_state_machine 65536 extW [1, 2, 3] (List.range 48) none
    "aes-256-cbc" none t1W rfl

/-- Counterexample to C6 as stated: supplying the hmacKey `""` (a given,
but falsy, key).  With the witness externals — whose keyed hash returns
its key — `begin()` succeeds and stores the trailing 14 bytes of the
48-byte password (`[34..47]`) as the signature, not the supplied empty
key: the signing key used is `last(14)`, not the caller-supplied one. -/
theorem C6_counterexample :
    (EncryptedTransporter.begin 65536 extW
      (EncryptedTransporter.create 65536 [1, 2, 3] (List.range 48)
        (some (.ofString "")) "aes-256-cbc" none)).map EncryptedTransporter.signature =
      .ok (some ((List.range 48).drop 34)) ∧
    some ((List.range 48).drop 34) ≠
      some (extW.hmacFn [1, 2, 3] (hmacKeyBytes (.ofString ""))) := by
  constructor
  · rfl
  · decide

/-- Witness for `C6_signing_key`: the fixture (no HMAC key) stores the
keyed hash of `[1,2,3]` under the trailing 14 bytes of the password. -/
theorem C6_signing_key_witness :
    t1W.signature = some (extW.hmacFn [1, 2, 3] (signingKeyModel (List.range 48) none)) ∧
    (hmacKeyTruthy none = false →
      signingKeyModel (List.range 48) none = (List.range 48).drop ((List.range 48).length - 14) ∧
      (signingKeyModel (List.range 48) none).length = 14) :=
  C6_signing_key 65536 extW [1, 2, 3] (List.range 48) none "aes-256-cbc" none t1W rfl

/-- The authentication-tag length `authTag()` actually defaults to:
16 for `128`-bit algorithm names, 32 otherwise. -/
def tagLenDefault (alg : String) : Nat :=
  if strIncludes alg "128" then 16 else 32

/-- Amended C7: for `KeyMaterial` built with an `aes-*` algorithm and no
explicit `ivLength`/`authTagLength`, the default IV length is 16 bytes,
but the default tag length is `tagLenDefault` — 16 only for the `128`-bit
variants and 32 otherwise; `tagSlice()` returns
`bytes[keyLength+ivLength, keyLength+ivLength+tagLength)` when the secret
buffer is long enough and `null` otherwise. -/
theorem C7_tag_defaults (key : List Nat) (kl : Nat) (alg : String) (us : List String)
    (sk : SymmetricKey)
    (hpre : strStarts alg "aes-" = true)
    (hne : (alg == "") = false)
    (hsk : SymmetricKey.create key kl
      { usages := us, algorithm := some alg, ivLength := none, authTagLength := none } = .ok sk) :
    sk.ivLen = 16 ∧
    sk.authTag = (if key.length < kl + 16 + tagLenDefault alg then none
                  else some ((key.drop (kl + 16)).take (tagLenDefault alg))) := by
  simp only [SymmetricKey.create, truthyAlg, truthyLen, hne, hpre] at hsk
  split at hsk
  · exact Except.noConfusion hsk
  rename_i hlen
  injection hsk with h2
  subst h2
  norm_num
  constructor
  · simp [SymmetricKey.ivLen]
  · simp only [SymmetricKey.authTag, SymmetricKey.ivLen, SymmetricKey.algorithmStr,
      Option.getD_none, Option.getD_some]
    rw [show (if strIncludes alg "128" = true then 16 else 32) = tagLenDefault alg from rfl]
    by_cases hA : kl = key.length
    · rw [if_pos hA, if_pos (by omega)]
    · rw [if_neg hA]

/-- Counterexample to C7 as stated: a 64-byte secret with `aes-256-cbc`
(key length 32).  Under the claimed 16-byte default tag the buffer is
exactly long enough (`32 + 16 + 16 = 64`) and `tagSlice()` should be
bytes `[48, 64)`; the code's default tag length for a non-`128` algorithm
is 32, so `authTag()` returns `null` instead. -/
theorem C7_counterexample :
    (SymmetricKey.create (List.range 64) 32
      { usages := [], algorithm := some "aes-256-cbc", ivLength := none,
        authTagLength := none }).map SymmetricKey.authTag = .ok none ∧
    (none : Option (List Nat)) ≠ some (((List.range 64).drop 48).take 16) := by
  exact ⟨rfl, by decide⟩

/-- The key material for the `C7_tag_defaults` witness: an 80-byte secret
with `aes-256-cbc`. -/
def skW7 : SymmetricKey :=
  (SymmetricKey.create (List.range 80) 32
    { usages := [], algorithm := some "aes-256-cbc", ivLength := none,
      authTagLength := none }).toOption.getD
    { key := [], keyLength := 0, options := {} }

/-- Witness for `C7_tag_defaults`: the 80-byte secret is long enough for
the 32-byte default tag of `aes-256-cbc`, whose slice is bytes `[48, 80)`. -/
theorem C7_tag_defaults_witness :
    skW7.ivLen = 16 ∧
    skW7.authTag = (if (List.range 80).length < 32 + 16 + tagLenDefault "aes-256-cbc" then none
                    else some (((List.range 80).drop (32 + 16)).take (tagLenDefault "aes-256-cbc"))) :=
  C7_tag_defaults (List.range 80) 32 "aes-256-cbc" [] skW7 (by decide) (by decide) rfl

/-- Constructing a `Transporter` or an `EncryptedTransporter` with
`maxChunkSize = 0` does not fail: the falsy zero is silently replaced by
the default `MAX_CHUNK_SIZE` (here the positive parameter `MCS`), so the
constructed object — and hence the resulting split — is exactly the one
an omitted `maxChunkSize` produces. -/
theorem C10_zero_chunk_size_defaults (MCS : Nat) (_hM : 0 < MCS)
    (p pw : List Nat) (hk : Option HmacKeyArg) (alg : String) :
    Transporter.create MCS p (some 0) = Transporter.create MCS p none ∧
    (∃ t, Transporter.create MCS p (some 0) = .ok t ∧ t.maxLength = MCS) ∧
    EncryptedTransporter.create MCS p pw hk alg (some 0) =
      EncryptedTransporter.create MCS p pw hk alg none := by
  have heff : effectiveMax MCS (some 0) = effectiveMax MCS none := by
    simp [effectiveMax]
  have hMeq : effectiveMax MCS (some 0) = MCS := by
    simp [effectiveMax]
  refine ⟨?_, ?_, ?_⟩
  · unfold Transporter.create
    rw [heff]
  · have hok : Transporter.create MCS p (some 0) =
        .ok { maxLength := MCS,
              stream := { chunks := transporterSlices MCS p,
                          len := ((transporterSlices MCS p).map List.length).sum,
                          finished := true, disposed := false } } := by
      unfold Transporter.create
      rw [hMeq, foldAccept_ok _ _ rfl]
      simp [endStream, CSState.init]
    exact ⟨_, hok, rfl⟩
  · unfold EncryptedTransporter.create
    rw [heff]

/-- Witness for `C10_zero_chunk_size_defaults` at `MCS = 65536`. -/
theorem C10_zero_chunk_size_defaults_witness :
    Transporter.create 65536 [1, 2, 3] (some 0) = Transporter.create 65536 [1, 2, 3] none ∧
    (∃ t, Transporter.create 65536 [1, 2, 3] (some 0) = .ok t ∧ t.maxLength = 65536) ∧
    EncryptedTransporter.create 65536 [1, 2, 3] (List.range 48) none "aes-256-cbc" (some 0) =
      EncryptedTransporter.create 65536 [1, 2, 3] (List.range 48) none "aes-256-cbc" none :=
  C10_zero_chunk_size_defaults 65536 (by decide) [1, 2, 3] (List.range 48) none "aes-256-cbc"
